import Mathlib

/-!
Verification of the AnesthesiaTOC build pipeline.

The definitions below are a shallow embedding of `scripts/build_data.py` and
`scripts/build_metrics.py`.  Python strings holding ISO `YYYY-MM-DD` dates are
modelled as Lean `String`s compared with the explicit code-point-lexicographic
comparison `strLt` and `strLe` (this is Python's string comparison); `min` and
`max` over Python lists are modelled by the folds `pyMin` and `pyMax`, which
keep the first extremum exactly as Python's builtins do.
-/

/-- Python's `<` on strings, as code-point lexicographic order on char lists. -/
def charListLt : List Char → List Char → Bool
  | [], [] => false
  | [], _ :: _ => true
  | _ :: _, [] => false
  | a :: as, b :: bs => if a < b then true else if b < a then false else charListLt as bs

/-- Python string `a < b`. -/
def strLt (a b : String) : Bool := charListLt a.data b.data

/-- Python string `a <= b` (total order, so `a <= b` iff not `b < a`). -/
def strLe (a b : String) : Bool := !(strLt b a)

/-- The executable comparison agrees with the lexicographic order on char lists. -/
theorem charListLt_iff_lt : ∀ (a b : List Char), charListLt a b = true ↔ a < b := by
  intro a
  induction a with
  | nil =>
    intro b
    cases b with
    | nil =>
      simp only [charListLt, Bool.false_eq_true, false_iff]
      intro h
      cases h
    | cons c cs =>
      simp only [charListLt, true_iff]
      exact List.nil_lt_cons c cs
  | cons a as ih =>
    intro b
    cases b with
    | nil =>
      simp only [charListLt, Bool.false_eq_true, false_iff]
      intro h
      cases h
    | cons c cs =>
      show (if a < c then true else if c < a then false else charListLt as cs) = true ↔
        List.Lex (· < ·) (a :: as) (c :: cs)
      rcases lt_trichotomy a c with h | h | h
      · rw [if_pos h]
        exact ⟨fun _ => List.Lex.rel h, fun _ => rfl⟩
      · subst h
        rw [if_neg (lt_irrefl a), if_neg (lt_irrefl a)]
        constructor
        · intro hl
          exact List.Lex.cons ((ih cs).mp hl)
        · intro hl
          cases hl with
          | cons h2 => exact (ih cs).mpr h2
          | rel h2 => exact absurd h2 (lt_irrefl a)
      · rw [if_neg (lt_asymm h), if_pos h]
        simp only [Bool.false_eq_true, false_iff]
        intro hl
        cases hl with
        | cons h2 => exact absurd h (lt_irrefl a)
        | rel h2 => exact absurd h2 (lt_asymm h)

theorem strLt_iff (a b : String) : strLt a b = true ↔ a.data < b.data :=
  charListLt_iff_lt a.data b.data

theorem strLt_eq_false_iff (a b : String) : strLt a b = false ↔ b.data ≤ a.data := by
  rw [← Bool.not_eq_true, strLt_iff]
  exact not_lt

theorem strLe_iff (a b : String) : strLe a b = true ↔ a.data ≤ b.data := by
  unfold strLe
  rw [Bool.not_eq_true', strLt_eq_false_iff]

theorem strLe_eq_false_iff (a b : String) : strLe a b = false ↔ b.data < a.data := by
  rw [← Bool.not_eq_true, strLe_iff]
  exact not_le

/-- Python's `max` over a list (first maximum wins, as in CPython). -/
def pyMax (xs : List String) : Option String :=
  xs.foldl (fun acc c =>
    match acc with
    | none => some c
    | some a => if strLt a c then some c else some a) none

/-- Python's `min` over a list (first minimum wins, as in CPython). -/
def pyMin (xs : List String) : Option String :=
  xs.foldl (fun acc c =>
    match acc with
    | none => some c
    | some a => if strLt c a then some c else some a) none

theorem pyMax_aux_spec (xs : List String) : ∀ (a : String),
    ∃ m, xs.foldl (fun acc c =>
        match acc with
        | none => some c
        | some a => if strLt a c then some c else some a) (some a) = some m ∧
      (m = a ∨ m ∈ xs) ∧ a.data ≤ m.data ∧ ∀ x ∈ xs, x.data ≤ m.data := by
  induction xs with
  | nil =>
    intro a
    exact ⟨a, rfl, Or.inl rfl, le_refl _, by simp⟩
  | cons c cs ih =>
    intro a
    by_cases h : strLt a c = true
    · have hac : a.data < c.data := (strLt_iff a c).mp h
      obtain ⟨m, hm, hmem, hle, hall⟩ := ih c
      refine ⟨m, by simpa [h] using hm, ?_, le_trans (le_of_lt hac) hle, ?_⟩
      · rcases hmem with h1 | h1
        · exact Or.inr (by simp [h1])
        · exact Or.inr (List.mem_cons_of_mem _ h1)
      · intro x hx
        rcases List.mem_cons.mp hx with h1 | h1
        · subst h1; exact hle
        · exact hall x h1
    · have hca : c.data ≤ a.data := (strLt_eq_false_iff a c).mp (Bool.eq_false_iff.mpr h)
      obtain ⟨m, hm, hmem, hle, hall⟩ := ih a
      refine ⟨m, by simpa [h] using hm, ?_, hle, ?_⟩
      · rcases hmem with h1 | h1
        · exact Or.inl h1
        · exact Or.inr (List.mem_cons_of_mem _ h1)
      · intro x hx
        rcases List.mem_cons.mp hx with h1 | h1
        · subst h1; exact le_trans hca hle
        · exact hall x h1

/-- On a nonempty list, `pyMax` returns a member that dominates every member. -/
theorem pyMax_spec (xs : List String) (h : xs ≠ []) :
    ∃ m, pyMax xs = some m ∧ m ∈ xs ∧ ∀ x ∈ xs, strLe x m = true := by
  match xs, h with
  | c :: cs, _ =>
    obtain ⟨m, hm, hmem, hle, hall⟩ := pyMax_aux_spec cs c
    refine ⟨m, hm, ?_, ?_⟩
    · rcases hmem with h1 | h1
      · simp [h1]
      · exact List.mem_cons_of_mem _ h1
    · intro x hx
      rcases List.mem_cons.mp hx with h1 | h1
      · subst h1; exact (strLe_iff _ _).mpr hle
      · exact (strLe_iff _ _).mpr (hall x h1)

theorem pyMin_aux_spec (xs : List String) : ∀ (a : String),
    ∃ m, xs.foldl (fun acc c =>
        match acc with
        | none => some c
        | some a => if strLt c a then some c else some a) (some a) = some m ∧
      (m = a ∨ m ∈ xs) ∧ m.data ≤ a.data ∧ ∀ x ∈ xs, m.data ≤ x.data := by
  induction xs with
  | nil =>
    intro a
    exact ⟨a, rfl, Or.inl rfl, le_refl _, by simp⟩
  | cons c cs ih =>
    intro a
    by_cases h : strLt c a = true
    · have hca : c.data < a.data := (strLt_iff c a).mp h
      obtain ⟨m, hm, hmem, hle, hall⟩ := ih c
      refine ⟨m, by simpa [h] using hm, ?_, le_trans hle (le_of_lt hca), ?_⟩
      · rcases hmem with h1 | h1
        · exact Or.inr (by simp [h1])
        · exact Or.inr (List.mem_cons_of_mem _ h1)
      · intro x hx
        rcases List.mem_cons.mp hx with h1 | h1
        · subst h1; exact hle
        · exact hall x h1
    · have hac : a.data ≤ c.data := (strLt_eq_false_iff c a).mp (Bool.eq_false_iff.mpr h)
      obtain ⟨m, hm, hmem, hle, hall⟩ := ih a
      refine ⟨m, by simpa [h] using hm, ?_, hle, ?_⟩
      · rcases hmem with h1 | h1
        · exact Or.inl h1
        · exact Or.inr (List.mem_cons_of_mem _ h1)
      · intro x hx
        rcases List.mem_cons.mp hx with h1 | h1
        · subst h1; exact le_trans hle hac
        · exact hall x h1

/-- On a nonempty list, `pyMin` returns a member below every member. -/
theorem pyMin_spec (xs : List String) (h : xs ≠ []) :
    ∃ m, pyMin xs = some m ∧ m ∈ xs ∧ ∀ x ∈ xs, strLe m x = true := by
  match xs, h with
  | c :: cs, _ =>
    obtain ⟨m, hm, hmem, hle, hall⟩ := pyMin_aux_spec cs c
    refine ⟨m, hm, ?_, ?_⟩
    · rcases hmem with h1 | h1
      · simp [h1]
      · exact List.mem_cons_of_mem _ h1
    · intro x hx
      rcases List.mem_cons.mp hx with h1 | h1
      · subst h1; exact (strLe_iff _ _).mpr hle
      · exact (strLe_iff _ _).mpr (hall x h1)

/-- A successful `List.find?` splits the list at the first satisfying element. -/
theorem find_split {α : Type} (p : α → Bool) : ∀ (l : List α) (a : α),
    l.find? p = some a →
    p a = true ∧ ∃ pre post, l = pre ++ a :: post ∧ ∀ x ∈ pre, p x = false := by
  intro l
  induction l with
  | nil => intro a h; simp [List.find?] at h
  | cons x xs ih =>
    intro a h
    by_cases hx : p x = true
    · rw [List.find?_cons_of_pos _ hx] at h
      cases h
      exact ⟨hx, [], xs, rfl, by simp⟩
    · have hx2 : p x = false := Bool.eq_false_iff.mpr hx
      rw [List.find?_cons_of_neg _ hx] at h
      obtain ⟨hpa, pre, post, heq, hall⟩ := ih a h
      refine ⟨hpa, x :: pre, post, by simp [heq], ?_⟩
      intro y hy
      rcases List.mem_cons.mp hy with h1 | h1
      · subst h1; exact hx2
      · exact hall y h1

/-- Zero-pad a natural number to `w` digits, as Python `f"{n:0wd}"` for n ≥ 0. -/
def pad (w : Nat) (n : Nat) : String :=
  let s := toString n
  String.mk (List.replicate (w - s.length) '0') ++ s

/-- A Crossref `date-parts` value: a list of year/month/day part lists.
Crossref date parts are non-negative JSON integers, modelled as `Nat`. -/
abbrev DateParts := List (List Nat)

/-- A raw Crossref work record, restricted to the fields `build_data.py` reads.
Each `Option DateParts` field models `item[field]["date-parts"]`, with `none`
for an absent field. -/
structure RawWork where
  DOI : String := ""
  URL : Option String := none
  title : List String := []
  published_online : Option DateParts := none
  published_print : Option DateParts := none
  issued : Option DateParts := none
  created : Option DateParts := none
  indexed : Option DateParts := none
  deposited : Option DateParts := none

/-- `extract_ymd` from build_data.py: first `date-parts` entry formatted as
`YYYY-MM-DD`, month and day defaulting to 1; `None` when the field is missing,
empty, or its first entry is empty (the `IndexError` is caught). -/
def extract_ymd (parts : Option DateParts) : Option String :=
  match parts with
  | none => none
  | some [] => none
  | some (p0 :: _) =>
    match p0 with
    | [] => none
    | y :: rest =>
      let m := match rest with
        | [] => 1
        | m :: _ => m
      let d := match rest with
        | _ :: d :: _ => d
        | _ => 1
      some (pad 4 y ++ "-" ++ pad 2 m ++ "-" ++ pad 2 d)

/-- The six date fields `pick_date` examines, in source order. -/
def dateFields (r : RawWork) : List (Option DateParts) :=
  [r.published_online, r.published_print, r.issued, r.created, r.indexed, r.deposited]

/-- The candidate dates collected by `pick_date`. -/
def candidates (r : RawWork) : List String :=
  (dateFields r).filterMap extract_ymd

/-- `pick_date` from build_data.py, with the run date (`date.today().isoformat()`)
made an explicit parameter: latest non-future candidate, else earliest
candidate, else `None`. -/
def pick_date (today : String) (r : RawWork) : Option String :=
  let cands := candidates r
  if cands = [] then none
  else
    let nonFuture := cands.filter (fun c => strLe c today)
    if nonFuture = [] then pyMin cands
    else pyMax nonFuture

/-- `clean_title` from build_data.py: first title variant with whitespace runs
collapsed to single spaces and trimmed. -/
def clean_title (r : RawWork) : String :=
  match r.title with
  | [] => ""
  | t :: _ => " ".intercalate ((t.split Char.isWhitespace).filter (fun w => !w.isEmpty))

/-- A unified output item, restricted to the fields the claims are about. -/
structure Item where
  journal : String
  journal_short : String
  title : String
  published : Option String
  doi : String
  url : String
  aop : Bool
  pmid : Option String := none
  pubmed_url : Option String := none
  pubmed_publication_types : List String := []
  category : Option String := none

/-- `to_item` from build_data.py (run date explicit, as in `pick_date`). -/
def to_item (journal short today : String) (raw : RawWork) : Item :=
  let doi := raw.DOI
  let url := match raw.URL with
    | some u => if u = "" then (if doi = "" then "" else "https://doi.org/" ++ doi) else u
    | none => if doi = "" then "" else "https://doi.org/" ++ doi
  let online := extract_ymd raw.published_online
  let pprint := extract_ymd raw.published_print
  let issued := extract_ymd raw.issued
  let aop := match online with
    | none => false
    | some onl =>
      let later := [pprint, issued].filterMap id
      if later = [] then true
      else
        match pyMin later with
        | some m => strLt onl m
        | none => false
  { journal := journal
    journal_short := short
    title := clean_title raw
    published := pick_date today raw
    doi := doi
    url := url
    aop := aop }

/-- Python `str.lower()` as used on DOIs and titles (ASCII range; DOIs and the
rule patterns are ASCII). -/
def lowerAscii (s : String) : String := String.mk (s.data.map Char.toLower)

/-- The deduplication key from build_data.py `main`:
`(it.get("doi") or "").lower() or it.get("url") or ""`. -/
def dedupKey (it : Item) : String :=
  let k := lowerAscii it.doi
  if k = "" then it.url else k

/-- The dedupe loop of build_data.py `main`, with the `seen` set made explicit. -/
def dedupeAux : List String → List Item → List Item
  | _, [] => []
  | seen, it :: rest =>
    let key := dedupKey it
    if key = "" then dedupeAux seen rest
    else if key ∈ seen then dedupeAux seen rest
    else it :: dedupeAux (key :: seen) rest

/-- Deduplicate by DOI (fallback: URL), first occurrence wins. -/
def dedupe (items : List Item) : List Item := dedupeAux [] items

def CAT_META : String := "Meta-analysis"

def CAT_RCT : String := "Randomized Control Trials"

def CAT_OBS : String := "Observational Studies"

def CAT_GUIDE : String := "Guideline / Consensus"

def CAT_REVIEW : String := "Review (Narrative / Systematic)"

def CAT_EDITORIAL : String := "Editorial / Letter / Commentary"

def CAT_UNK : String := "Unclassified"

/-- The `PUBMED_TYPE_TO_CATEGORY` dict of build_data.py, as an association list. -/
def PUBMED_TYPE_TO_CATEGORY : List (String × String) := [
  ("Meta-Analysis", CAT_META),
  ("Randomized Controlled Trial", CAT_RCT),
  ("Clinical Trial", CAT_RCT),
  ("Clinical Trial, Phase I", CAT_RCT),
  ("Clinical Trial, Phase II", CAT_RCT),
  ("Clinical Trial, Phase III", CAT_RCT),
  ("Clinical Trial, Phase IV", CAT_RCT),
  ("Controlled Clinical Trial", CAT_RCT),
  ("Observational Study", CAT_OBS),
  ("Cohort Studies", CAT_OBS),
  ("Case-Control Studies", CAT_OBS),
  ("Cross-Sectional Studies", CAT_OBS),
  ("Practice Guideline", CAT_GUIDE),
  ("Guideline", CAT_GUIDE),
  ("Consensus Development Conference", CAT_GUIDE),
  ("Consensus Development Conference, NIH", CAT_GUIDE),
  ("Systematic Review", CAT_REVIEW),
  ("Review", CAT_REVIEW),
  ("Editorial", CAT_EDITORIAL),
  ("Comment", CAT_EDITORIAL),
  ("Letter", CAT_EDITORIAL)]

/-- Dict lookup `PUBMED_TYPE_TO_CATEGORY.get(pt)`. -/
def typeToCategory (pt : String) : Option String :=
  (PUBMED_TYPE_TO_CATEGORY.find? (fun e => e.1 == pt)).map (fun e => e.2)

/-- The precedence list of `category_from_pubmed_types`:
Meta > RCT > Guide > Review > Editorial > Observational. -/
def precedence : List String := [CAT_META, CAT_RCT, CAT_GUIDE, CAT_REVIEW, CAT_EDITORIAL, CAT_OBS]

/-- The `mapped` list built by `category_from_pubmed_types`. -/
def mappedCategories (pub_types : List String) : List String :=
  pub_types.filterMap typeToCategory

/-- `category_from_pubmed_types` from build_data.py. -/
def category_from_pubmed_types (pub_types : List String) : Option String :=
  if pub_types = [] then none
  else
    let mapped := mappedCategories pub_types
    if mapped = [] then none
    else
      match precedence.find? (fun cat => mapped.contains cat) with
      | some cat => some cat
      | none => mapped.head?

/-- Regular expressions as used by the `TITLE_RULES` patterns of build_data.py:
literal characters, character classes, alternation, an optional group, and the
word-boundary anchor. The patterns use no other constructs. -/
inductive Re where
  | eps
  | chr (c : Char)
  | cls (cs : List Char)
  | wb
  | seq (a b : Re)
  | alt (a b : Re)
  | opt (a : Re)

/-- A word character for the word-boundary anchor, Python `\w` over ASCII. -/
def wordChar (c : Char) : Bool := c.isAlphanum || c = '_'

def isWordOpt : Option Char → Bool
  | none => false
  | some c => wordChar c

/-- Whether a word boundary lies between the previous character and the rest. -/
def atBoundary (prev : Option Char) (s : List Char) : Bool :=
  isWordOpt prev != isWordOpt s.head?

/-- All ways a regex can consume a prefix of `s`; each result carries the last
consumed character (for the word-boundary anchor) and the remaining suffix. -/
def mstep : Re → Option Char → List Char → List (Option Char × List Char)
  | .eps, prev, s => [(prev, s)]
  | .chr _, _, [] => []
  | .chr c, _, x :: xs => if x = c then [(some x, xs)] else []
  | .cls _, _, [] => []
  | .cls cs, _, x :: xs => if cs.contains x then [(some x, xs)] else []
  | .wb, prev, s => if atBoundary prev s then [(prev, s)] else []
  | .seq a b, prev, s => (mstep a prev s).flatMap (fun pr => mstep b pr.1 pr.2)
  | .alt a b, prev, s => mstep a prev s ++ mstep b prev s
  | .opt a, prev, s => mstep a prev s ++ [(prev, s)]

/-- Search for a match starting at any position, threading the previous
character for word boundaries. -/
def searchAux (r : Re) : Option Char → List Char → Bool
  | prev, [] => !(mstep r prev []).isEmpty
  | prev, x :: xs => !(mstep r prev (x :: xs)).isEmpty || searchAux r (some x) xs

/-- Python `re.search(pattern, s)` truthiness for the pattern fragment `r`. -/
def re_search (r : Re) (s : String) : Bool := searchAux r none s.data

def litL : List Char → Re
  | [] => .eps
  | c :: cs => .seq (.chr c) (litL cs)

/-- A literal string pattern. -/
def lit (s : String) : Re := litL s.data

/-- A pattern wrapped in word boundaries. -/
def bword (r : Re) : Re := .seq .wb (.seq r .wb)

def altList : List Re → Re
  | [] => .cls []
  | [r] => r
  | r :: rs => .alt r (altList rs)

/-- The `TITLE_RULES` list of build_data.py, in source order. -/
def TITLE_RULES : List (String × Re) := [
  (CAT_META, altList [
    bword (.seq (lit "meta") (.seq (.cls ['-', ' ']) (lit "analysis"))),
    bword (.seq (lit "network meta") (.seq (.cls ['-', ' ']) (lit "analysis"))),
    bword (lit "metaanalysis")]),
  (CAT_RCT, altList [
    bword (.seq (lit "randomi") (.seq (.cls ['s', 'z']) (lit "ed"))),
    bword (.seq (lit "randomi") (.seq (.cls ['s', 'z']) (lit "ation"))),
    bword (lit "controlled trial"),
    bword (lit "rct"),
    bword (lit "trial")]),
  (CAT_GUIDE, altList [
    bword (lit "practice guideline"),
    bword (.seq (lit "guideline") (.opt (lit "s"))),
    bword (lit "consensus"),
    bword (lit "position statement"),
    bword (lit "recommendations")]),
  (CAT_REVIEW, altList [
    bword (lit "systematic review"),
    bword (lit "review"),
    bword (lit "scoping review"),
    bword (lit "rapid review")]),
  (CAT_EDITORIAL, altList [
    bword (lit "editorial"),
    bword (lit "commentary"),
    bword (lit "correspondence"),
    bword (lit "letter"),
    bword (lit "comment"),
    bword (lit "reply")]),
  (CAT_OBS, altList [
    bword (lit "observational"),
    bword (lit "cohort"),
    bword (.seq (lit "case") (.seq (.cls ['-', ' ']) (lit "control"))),
    bword (.seq (lit "cross") (.seq (.cls ['-', ' ']) (lit "sectional"))),
    bword (lit "registry")])]

/-- `category_from_title` from build_data.py: lowercase the title, return the
category of the first matching rule. -/
def category_from_title (title : String) : Option String :=
  if title = "" then none
  else
    let t := lowerAscii title
    match TITLE_RULES.find? (fun rule => re_search rule.2 t) with
    | some rule => some rule.1
    | none => none

/-- `choose_category` from build_data.py: PubMed types first, then title rules,
then Unclassified. -/
def choose_category (pub_types : List String) (title : String) : String :=
  match category_from_pubmed_types pub_types with
  | some cat => cat
  | none =>
    match category_from_title title with
    | some cat2 => cat2
    | none => CAT_UNK

/-- The budgeted DOI-to-PMID pass of build_data.py `main` (enrichment step 1).
`lookup doi` models `doi_to_pmid(doi)`, with `none` covering both an empty
PubMed id list and a logged lookup failure (neither sets a pmid, both consume
budget). Items without a DOI are skipped without consuming budget; once the
budget is exhausted the loop breaks and the remaining items are untouched. -/
def pmid_lookup_pass (lookup : String → Option String) : Nat → List Item → List Item
  | _, [] => []
  | 0, items => items
  | budget + 1, it :: rest =>
    if it.doi = "" then it :: pmid_lookup_pass lookup (budget + 1) rest
    else
      match lookup it.doi with
      | some p =>
        { it with pmid := some p,
                  pubmed_url := some ("https://pubmed.ncbi.nlm.nih.gov/" ++ p ++ "/") } ::
          pmid_lookup_pass lookup budget rest
      | none => it :: pmid_lookup_pass lookup budget rest

/-- The final per-item assignment loop of build_data.py `main`: set
`pubmed_publication_types` (empty when no pmid or no fetched types), set
`category` via `choose_category`, and pop `pmid`/`pubmed_url` when no pmid.
`pmidToTypes` models the `pmid_to_types` dict. -/
def finalize_item (pmidToTypes : String → Option (List String)) (it : Item) : Item :=
  let pub_types := match it.pmid with
    | some p => (pmidToTypes p).getD []
    | none => []
  let it2 := { it with pubmed_publication_types := pub_types,
                       category := some (choose_category pub_types it.title) }
  match it.pmid with
  | some _ => it2
  | none => { it2 with pmid := none, pubmed_url := none }

/-- Enrichment steps 1 and 3 of build_data.py `main` composed: budgeted PMID
lookups, then publication-type and category assignment on every item. -/
def enrich_pipeline (lookup : String → Option String) (budget : Nat)
    (pmidToTypes : String → Option (List String)) (items : List Item) : List Item :=
  (pmid_lookup_pass lookup budget items).map (finalize_item pmidToTypes)

/-- The `issn` field of a source descriptor in sources.json: a string or a
list of strings. -/
inductive IssnField where
  | str (s : String)
  | list (l : List String)

/-- A journal descriptor from sources.json, restricted to the fields read. -/
structure SourceDesc where
  name : String
  short : Option String := none
  issn : IssnField := .str ""

/-- The ISSNs for which the main loop of build_data.py issues a Crossref query
for one source: `issn = s.get("issn", "")`, then `issn = issn[0] if issn else
""` when it is a list, then `continue` when falsy, else one query for `issn`. -/
def queried_issns (s : SourceDesc) : List String :=
  let issn := match s.issn with
    | .str v => v
    | .list l =>
      match l with
      | [] => ""
      | i :: _ => i
  if issn = "" then [] else [issn]

/-- The control flow of build_metrics.py `main` (lines 224-269). `sourcesExists`
models the `os.path.exists(SOURCES_PATH)` guard; `old` is the content of a
pre-existing journal_metrics.json (`none` when absent, which also models
`have_old`); `attempt1`/`attempt2` are the outcomes of fetching and building
from the SCImago export and the fallback CSV (`Except.error` when the fetch or
`build_from_text` raises). The result is the process exit code paired with the
content of journal_metrics.json after the run; a successful attempt writes its
output, and total failure leaves the file untouched. -/
def metrics_main {α : Type} (sourcesExists : Bool) (old : Option α)
    (attempt1 attempt2 : Except String α) : Int × Option α :=
  if !sourcesExists then (2, old)
  else
    match attempt1 with
    | .ok out => (0, some out)
    | .error _ =>
      match attempt2 with
      | .ok out => (0, some out)
      | .error _ => if old.isSome then (0, old) else (1, old)

/-- C1: when both metrics sources fail in one run, build_metrics.py `main`
leaves journal_metrics.json unchanged, exits 0 when a previous output file
exists, and exits 1 when none exists. -/
theorem metrics_total_failure {α : Type} (old : Option α) (e1 e2 : String) :
    (metrics_main true old (Except.error e1) (Except.error e2)).2 = old ∧
    ((∃ prev, old = some prev) →
      (metrics_main true old (Except.error e1) (Except.error e2)).1 = 0) ∧
    (old = none → (metrics_main true old (Except.error e1) (Except.error e2)).1 = 1) := by
  cases old with
  | none =>
    refine ⟨rfl, ?_, fun _ => rfl⟩
    rintro ⟨prev, hp⟩
    cases hp
  | some prev =>
    refine ⟨rfl, fun _ => rfl, fun hn => ?_⟩
    cases hn

/-- Witness for C1: with a pre-existing metrics file and both sources failing,
the exit code is 0. -/
theorem metrics_total_failure_witness :
    (metrics_main true (some "previous metrics") (Except.error "403")
      (Except.error "404")).1 = 0 :=
  (metrics_total_failure (some "previous metrics") "403" "404").2.1 ⟨"previous metrics", rfl⟩

/-- A source descriptor listing two ISSNs. -/
def twoIssnSource : SourceDesc :=
  { name := "Anesthesiology", short := some "Anes", issn := .list ["0003-3022", "1528-1175"] }

/-- C9 counterexample: for a descriptor whose `issn` field lists two ISSNs,
build_data.py `main` issues a Crossref query only for the first ISSN; the
second listed ISSN is never queried. -/
theorem crossref_second_issn_not_queried :
    queried_issns twoIssnSource = ["0003-3022"] ∧
    "1528-1175" ∉ queried_issns twoIssnSource := by
  refine ⟨rfl, ?_⟩
  decide

/-- C9 amended: when the `issn` field is a list, exactly the first listed ISSN
is queried (and none when the list is empty or its first entry is empty). -/
theorem crossref_queries_first_issn_only (name : String) (short : Option String)
    (l : List String) :
    queried_issns { name := name, short := short, issn := .list l } =
      (match l with
       | [] => []
       | i :: _ => if i = "" then [] else [i]) := by
  cases l with
  | nil => rfl
  | cons i rest => rfl

/-- The aop flag computed by `to_item`, exposed as an equation. -/
theorem to_item_aop (journal short today : String) (raw : RawWork) :
    (to_item journal short today raw).aop =
      (match extract_ymd raw.published_online with
       | none => false
       | some onl =>
         let later := [extract_ymd raw.published_print, extract_ymd raw.issued].filterMap id
         if later = [] then true
         else
           match pyMin later with
           | some m => strLt onl m
           | none => false) := rfl

/-- The published date computed by `to_item` is `pick_date`. -/
theorem to_item_published (journal short today : String) (raw : RawWork) :
    (to_item journal short today raw).published = pick_date today raw := rfl

/-- Membership in the `later` list of `to_item`. -/
theorem mem_later_iff (raw : RawWork) (d : String) :
    d ∈ [extract_ymd raw.published_print, extract_ymd raw.issued].filterMap id ↔
      (extract_ymd raw.published_print = some d ∨ extract_ymd raw.issued = some d) := by
  cases h1 : extract_ymd raw.published_print <;> cases h2 : extract_ymd raw.issued <;>
    simp [h1, h2, eq_comm]

/-- C7: the aop flag is true iff an online date exists and every known print or
issued date is strictly later than it. (For the nonempty case this is the same
as the earliest of the print/issued dates being strictly later than the online
date, since the minimum exceeds a bound iff every element does; with no
print/issued date the condition holds vacuously.) -/
theorem aop_characterization (journal short today : String) (raw : RawWork) :
    (to_item journal short today raw).aop = true ↔
    ∃ onl, extract_ymd raw.published_online = some onl ∧
      ∀ d, (extract_ymd raw.published_print = some d ∨ extract_ymd raw.issued = some d) →
        strLt onl d = true := by
  rw [to_item_aop]
  cases honl : extract_ymd raw.published_online with
  | none =>
    simp only [Bool.false_eq_true, false_iff]
    rintro ⟨onl, hoe, _⟩
    cases hoe
  | some onl =>
    simp only []
    by_cases hl : [extract_ymd raw.published_print, extract_ymd raw.issued].filterMap id = []
    · rw [if_pos hl]
      simp only [true_iff]
      refine ⟨onl, rfl, ?_⟩
      intro d hd
      exact absurd ((mem_later_iff raw d).mpr hd) (by simp [hl])
    · rw [if_neg hl]
      obtain ⟨m, hm, hmem, hall⟩ := pyMin_spec _ hl
      rw [hm]
      constructor
      · intro hlt
        refine ⟨onl, rfl, ?_⟩
        intro d hd
        have hdm : strLe m d = true := hall d ((mem_later_iff raw d).mpr hd)
        rw [strLt_iff] at hlt ⊢
        exact lt_of_lt_of_le hlt ((strLe_iff m d).mp hdm)
      · rintro ⟨onl2, ho2, hfuture⟩
        cases ho2
        exact hfuture m ((mem_later_iff raw m).mp hmem)

/-- A raw record whose only date field is issued = 2024-01-10. -/
def rawIssuedOnly : RawWork := { issued := some [[2024, 1, 10]] }

/-- C8 counterexample: for a raw record whose only date field is an issued date
(2024-01-10, no online and no print date), `to_item` sets aop to false, not
true as claimed: the aop computation requires an online date. -/
theorem aop_issued_only_counterexample :
    extract_ymd rawIssuedOnly.issued = some "2024-01-10" ∧
    extract_ymd rawIssuedOnly.published_online = none ∧
    extract_ymd rawIssuedOnly.published_print = none ∧
    (to_item "Anesthesiology" "Anes" "2026-10-12" rawIssuedOnly).aop = false := by
  refine ⟨?_, rfl, rfl, rfl⟩
  rfl

/-- C8 amended: for a raw record with no online-publication date (in
particular one whose only date field is an issued date), the aop flag is
false. -/
theorem aop_false_without_online (journal short today : String) (raw : RawWork)
    (h : extract_ymd raw.published_online = none) :
    (to_item journal short today raw).aop = false := by
  rw [to_item_aop, h]

/-- Witness for the amended C8 at the issued-only record. -/
theorem aop_false_without_online_witness :
    (to_item "Anesthesiology" "Anes" "2026-10-12" rawIssuedOnly).aop = false :=
  aop_false_without_online "Anesthesiology" "Anes" "2026-10-12" rawIssuedOnly rfl

/-- The branch structure of `pick_date`, exposed as an equation. -/
theorem pick_date_eq_cases (today : String) (r : RawWork) :
    pick_date today r =
      (if candidates r = [] then none
       else if (candidates r).filter (fun c => strLe c today) = [] then pyMin (candidates r)
       else pyMax ((candidates r).filter (fun c => strLe c today))) := rfl

/-- C2 counterexample: at run date 2026-10-12, a raw record whose only date
field is issued = 3000-01-01 is normalized with published = "3000-01-01", a
date strictly after the run date, refuting the never-a-future-date invariant. -/
theorem published_never_future_counterexample :
    (to_item "Anesthesiology" "Anes" "2026-10-12"
      { issued := some [[3000, 1, 1]] }).published = some "3000-01-01" ∧
    strLe "3000-01-01" "2026-10-12" = false := ⟨rfl, rfl⟩

/-- C2 amended: a non-null published date is never after the run date, except
when every candidate date of the record is after the run date (in which case
the earliest future candidate is surfaced). -/
theorem published_not_future_unless_all_future (journal short today : String)
    (raw : RawWork) (d : String)
    (h : (to_item journal short today raw).published = some d) :
    strLe d today = true ∨ ∀ c ∈ candidates raw, strLe c today = false := by
  rw [to_item_published, pick_date_eq_cases] at h
  by_cases hc : candidates raw = []
  · rw [if_pos hc] at h
    cases h
  · rw [if_neg hc] at h
    by_cases hnf : (candidates raw).filter (fun c => strLe c today) = []
    · right
      intro c hcmem
      have hx := List.filter_eq_nil_iff.mp hnf c hcmem
      simpa using hx
    · left
      rw [if_neg hnf] at h
      obtain ⟨m, hm, hmem, _⟩ := pyMax_spec _ hnf
      rw [hm] at h
      cases h
      exact (List.mem_filter.mp hmem).2

/-- Witness for the amended C2: a past issued date is surfaced and is not
future. -/
theorem published_not_future_unless_all_future_witness :
    strLe "2024-01-10" "2026-10-12" = true ∨
      ∀ c ∈ candidates rawIssuedOnly, strLe c "2026-10-12" = false :=
  published_not_future_unless_all_future "Anesthesiology" "Anes" "2026-10-12"
    rawIssuedOnly "2024-01-10" rfl

/-- C3: `pick_date` returns none with no candidates; the latest non-future
candidate when one exists; the earliest candidate when all are future; and in
particular a record whose only date field is a single issued date (future or
not) resolves to that date, with month and day defaulting to 1 when absent. -/
theorem pick_date_characterization (today : String) (r : RawWork) :
    (candidates r = [] → pick_date today r = none) ∧
    ((∃ c ∈ candidates r, strLe c today = true) →
      ∃ d, pick_date today r = some d ∧ d ∈ candidates r ∧ strLe d today = true ∧
        ∀ c ∈ candidates r, strLe c today = true → strLe c d = true) ∧
    ((candidates r ≠ [] ∧ ∀ c ∈ candidates r, strLe c today = false) →
      ∃ d, pick_date today r = some d ∧ d ∈ candidates r ∧
        ∀ c ∈ candidates r, strLe d c = true) ∧
    (∀ y mo dd, pick_date today { issued := some [[y, mo, dd]] } =
      some (pad 4 y ++ "-" ++ pad 2 mo ++ "-" ++ pad 2 dd)) ∧
    (∀ y, extract_ymd (some [[y]]) = some (pad 4 y ++ "-" ++ pad 2 1 ++ "-" ++ pad 2 1)) := by
  refine ⟨?_, ?_, ?_, ?_, fun y => rfl⟩
  · intro hc
    rw [pick_date_eq_cases, if_pos hc]
  · rintro ⟨c, hcmem, hcle⟩
    have hnf : (candidates r).filter (fun c => strLe c today) ≠ [] := by
      intro he
      have hx := List.filter_eq_nil_iff.mp he c hcmem
      simp [hcle] at hx
    have hc : candidates r ≠ [] := by
      intro he
      rw [he] at hcmem
      cases hcmem
    obtain ⟨m, hm, hmem, hall⟩ := pyMax_spec _ hnf
    refine ⟨m, ?_, (List.mem_filter.mp hmem).1, (List.mem_filter.mp hmem).2, ?_⟩
    · rw [pick_date_eq_cases, if_neg hc, if_neg hnf, hm]
    · intro c2 hc2 hle2
      exact hall c2 (List.mem_filter.mpr ⟨hc2, hle2⟩)
  · rintro ⟨hc, hfut⟩
    have hnf : (candidates r).filter (fun c => strLe c today) = [] := by
      rw [List.filter_eq_nil_iff]
      intro c hcm
      simp [hfut c hcm]
    obtain ⟨m, hm, hmem, hall⟩ := pyMin_spec _ hc
    refine ⟨m, ?_, hmem, hall⟩
    rw [pick_date_eq_cases, if_neg hc, hnf, if_pos rfl, hm]
  · intro y mo dd
    have hcand : candidates { issued := some [[y, mo, dd]] } =
        [pad 4 y ++ "-" ++ pad 2 mo ++ "-" ++ pad 2 dd] := rfl
    rw [pick_date_eq_cases, hcand]
    by_cases hf : strLe (pad 4 y ++ "-" ++ pad 2 mo ++ "-" ++ pad 2 dd) today = true
    · simp [hf, pyMax]
    · have hf2 : strLe (pad 4 y ++ "-" ++ pad 2 mo ++ "-" ++ pad 2 dd) today = false :=
        Bool.eq_false_iff.mpr hf
      simp [hf2, pyMin]

/-- Witness for C3: a single past issued date 2024-01-10 at run date
2026-10-12 is returned as the latest non-future candidate. -/
theorem pick_date_characterization_witness :
    ∃ d, pick_date "2026-10-12" rawIssuedOnly = some d ∧ d ∈ candidates rawIssuedOnly ∧
      strLe d "2026-10-12" = true ∧
      ∀ c ∈ candidates rawIssuedOnly, strLe c "2026-10-12" = true → strLe c d = true :=
  (pick_date_characterization "2026-10-12" rawIssuedOnly).2.1
    ⟨"2024-01-10", by decide, by decide⟩

theorem dedupeAux_sublist : ∀ (seen : List String) (items : List Item),
    List.Sublist (dedupeAux seen items) items := by
  intro seen items
  induction items generalizing seen with
  | nil => simp [dedupeAux]
  | cons it rest ih =>
    show List.Sublist
      (if dedupKey it = "" then dedupeAux seen rest
       else if dedupKey it ∈ seen then dedupeAux seen rest
       else it :: dedupeAux (dedupKey it :: seen) rest) (it :: rest)
    by_cases h1 : dedupKey it = ""
    · rw [if_pos h1]
      exact List.Sublist.cons it (ih seen)
    · rw [if_neg h1]
      by_cases h2 : dedupKey it ∈ seen
      · rw [if_pos h2]
        exact List.Sublist.cons it (ih seen)
      · rw [if_neg h2]
        exact List.Sublist.cons₂ it (ih _)

theorem dedupeAux_mem : ∀ (seen : List String) (items : List Item) (it : Item),
    it ∈ dedupeAux seen items → dedupKey it ≠ "" ∧ dedupKey it ∉ seen := by
  intro seen items
  induction items generalizing seen with
  | nil => intro it h; cases h
  | cons it0 rest ih =>
    intro it h
    rw [show dedupeAux seen (it0 :: rest) =
      (if dedupKey it0 = "" then dedupeAux seen rest
       else if dedupKey it0 ∈ seen then dedupeAux seen rest
       else it0 :: dedupeAux (dedupKey it0 :: seen) rest) from rfl] at h
    by_cases h1 : dedupKey it0 = ""
    · rw [if_pos h1] at h
      exact ih seen it h
    · rw [if_neg h1] at h
      by_cases h2 : dedupKey it0 ∈ seen
      · rw [if_pos h2] at h
        exact ih seen it h
      · rw [if_neg h2] at h
        rcases List.mem_cons.mp h with h3 | h3
        · subst h3
          exact ⟨h1, h2⟩
        · have hx := ih _ it h3
          exact ⟨hx.1, fun hmem => hx.2 (List.mem_cons_of_mem _ hmem)⟩

theorem dedupeAux_pairwise : ∀ (seen : List String) (items : List Item),
    (dedupeAux seen items).Pairwise (fun a b => dedupKey a ≠ dedupKey b) := by
  intro seen items
  induction items generalizing seen with
  | nil => simp [dedupeAux]
  | cons it0 rest ih =>
    show List.Pairwise _
      (if dedupKey it0 = "" then dedupeAux seen rest
       else if dedupKey it0 ∈ seen then dedupeAux seen rest
       else it0 :: dedupeAux (dedupKey it0 :: seen) rest)
    by_cases h1 : dedupKey it0 = ""
    · rw [if_pos h1]
      exact ih seen
    · rw [if_neg h1]
      by_cases h2 : dedupKey it0 ∈ seen
      · rw [if_pos h2]
        exact ih seen
      · rw [if_neg h2]
        refine List.pairwise_cons.mpr ⟨?_, ih _⟩
        intro b hb heq
        have hx := dedupeAux_mem _ _ _ hb
        exact hx.2 (by rw [← heq]; exact List.mem_cons_self _ _)

theorem dedupeAux_filter (k : String) (hk : k ≠ "") : ∀ (seen : List String)
    (items : List Item),
    (dedupeAux seen items).filter (fun it => dedupKey it == k) =
      (if k ∈ seen then [] else (items.filter (fun it => dedupKey it == k)).take 1) := by
  intro seen items
  induction items generalizing seen with
  | nil => by_cases hs : k ∈ seen <;> simp [dedupeAux, hs]
  | cons it0 rest ih =>
    rw [show dedupeAux seen (it0 :: rest) =
      (if dedupKey it0 = "" then dedupeAux seen rest
       else if dedupKey it0 ∈ seen then dedupeAux seen rest
       else it0 :: dedupeAux (dedupKey it0 :: seen) rest) from rfl]
    by_cases h1 : dedupKey it0 = ""
    · have hne : (dedupKey it0 == k) = false := by
        rw [beq_eq_false_iff_ne]
        rw [h1]
        exact Ne.symm hk
      rw [if_pos h1, ih seen, List.filter_cons, hne]
      simp
    · rw [if_neg h1]
      by_cases h2 : dedupKey it0 ∈ seen
      · rw [if_pos h2, ih seen]
        by_cases hs : k ∈ seen
        · simp [hs]
        · have hne : (dedupKey it0 == k) = false := by
            rw [beq_eq_false_iff_ne]
            intro he
            exact hs (he ▸ h2)
          rw [if_neg hs, if_neg hs, List.filter_cons, hne]
          simp
      · rw [if_neg h2]
        simp only [List.filter_cons]
        by_cases h3 : dedupKey it0 = k
        · have hb : (dedupKey it0 == k) = true := beq_iff_eq.mpr h3
          have hs : k ∉ seen := fun hmem => h2 (h3.symm ▸ hmem)
          have hmemc : k ∈ dedupKey it0 :: seen := by
            rw [← h3]
            exact List.mem_cons_self _ _
          simp [hb, ih (dedupKey it0 :: seen), hmemc, hs]
        · have hb : (dedupKey it0 == k) = false := beq_eq_false_iff_ne.mpr h3
          have hknot : ¬ k = dedupKey it0 := fun he => h3 he.symm
          simp [hb, ih (dedupKey it0 :: seen), List.mem_cons, hknot]

/-- C4: within one deduplicated output no two items share a deduplication key
(lower-cased DOI, else URL); for every nonempty key the survivors are exactly
the first input occurrence of that key; keyless items (no DOI and no URL) are
dropped; and the output is a sublist of the input (order preserved). -/
theorem dedupe_spec (items : List Item) :
    (dedupe items).Pairwise (fun a b => dedupKey a ≠ dedupKey b) ∧
    (∀ it ∈ dedupe items, dedupKey it ≠ "") ∧
    (∀ k, k ≠ "" →
      (dedupe items).filter (fun it => dedupKey it == k) =
        (items.filter (fun it => dedupKey it == k)).take 1) ∧
    List.Sublist (dedupe items) items := by
  refine ⟨dedupeAux_pairwise [] items, ?_, ?_, dedupeAux_sublist [] items⟩
  · intro it h
    exact (dedupeAux_mem [] items it h).1
  · intro k hk
    have hx := dedupeAux_filter k hk [] items
    simpa using hx

def itA : Item :=
  { journal := "BJA", journal_short := "BJA", title := "t1",
    published := some "2025-01-01", doi := "10.1093/BJA/AB", url := "u1", aop := false }

def itB : Item :=
  { journal := "BJA", journal_short := "BJA", title := "t2",
    published := some "2025-02-02", doi := "10.1093/bja/ab", url := "u2", aop := false }

def itC : Item :=
  { journal := "BJA", journal_short := "BJA", title := "t3",
    published := none, doi := "", url := "", aop := false }

/-- Witness for C4: two items whose DOIs differ only by case share one key and
only the first survives. -/
theorem dedupe_spec_witness :
    (dedupe [itA, itB, itC]).filter (fun it => dedupKey it == "10.1093/bja/ab") =
      (([itA, itB, itC]).filter (fun it => dedupKey it == "10.1093/bja/ab")).take 1 :=
  (dedupe_spec [itA, itB, itC]).2.2.1 "10.1093/bja/ab" (by decide)

/-- Every category in the PubMed type table appears in the precedence list. -/
theorem typeToCategory_mem_precedence (pt cat : String)
    (h : typeToCategory pt = some cat) : cat ∈ precedence := by
  unfold typeToCategory at h
  cases hf : PUBMED_TYPE_TO_CATEGORY.find? (fun e => e.1 == pt) with
  | none =>
    rw [hf] at h
    cases h
  | some e =>
    rw [hf] at h
    simp only [Option.map_some'] at h
    have he : e ∈ PUBMED_TYPE_TO_CATEGORY := List.mem_of_find?_eq_some hf
    have hall : ∀ x ∈ PUBMED_TYPE_TO_CATEGORY, x.2 ∈ precedence := by decide
    have heq : e.2 = cat := Option.some.inj h
    rw [← heq]
    exact hall e he

theorem mappedCategories_subset_precedence (pts : List String) :
    ∀ c ∈ mappedCategories pts, c ∈ precedence := by
  intro c hc
  obtain ⟨pt, _, h⟩ := List.mem_filterMap.mp hc
  exact typeToCategory_mem_precedence pt c h

/-- C5: when at least one PubMed publication type maps through the lookup
table, the classifier returns a mapped category such that no
higher-precedence category (earlier in Meta-analysis > RCT > Guideline >
Review > Editorial > Observational) was mapped; in particular
["Review", "Meta-Analysis"] classifies as Meta-analysis. -/
theorem category_precedence_spec (pub_types : List String)
    (h : mappedCategories pub_types ≠ []) :
    (∃ c pre post, category_from_pubmed_types pub_types = some c ∧
      c ∈ mappedCategories pub_types ∧ precedence = pre ++ c :: post ∧
      ∀ c' ∈ pre, c' ∉ mappedCategories pub_types) ∧
    category_from_pubmed_types ["Review", "Meta-Analysis"] = some CAT_META := by
  refine ⟨?_, rfl⟩
  have hpts : pub_types ≠ [] := by
    intro he
    rw [he] at h
    exact h rfl
  have hmain : category_from_pubmed_types pub_types =
      (match precedence.find? (fun cat => (mappedCategories pub_types).contains cat) with
       | some cat => some cat
       | none => (mappedCategories pub_types).head?) := by
    unfold category_from_pubmed_types
    rw [if_neg hpts, if_neg h]
  cases hf : precedence.find? (fun cat => (mappedCategories pub_types).contains cat) with
  | none =>
    exfalso
    obtain ⟨c0, hc0⟩ := List.exists_mem_of_ne_nil _ h
    have hcp : c0 ∈ precedence := mappedCategories_subset_precedence _ c0 hc0
    have hx := List.find?_eq_none.mp hf c0 hcp
    simp only [List.elem_iff] at hx
    exact hx hc0
  | some cat =>
    obtain ⟨hp, pre, post, heq, hall⟩ := find_split _ _ _ hf
    refine ⟨cat, pre, post, ?_, ?_, heq, ?_⟩
    · rw [hmain, hf]
    · exact List.elem_iff.mp hp
    · intro c' hc' hmem
      have hx := hall c' hc'
      rw [← Bool.not_eq_true, List.elem_iff] at hx
      exact hx hmem

/-- Witness for C5 at publication types ["Review", "Meta-Analysis"]. -/
theorem category_precedence_spec_witness :
    ∃ c pre post, category_from_pubmed_types ["Review", "Meta-Analysis"] = some c ∧
      c ∈ mappedCategories ["Review", "Meta-Analysis"] ∧ precedence = pre ++ c :: post ∧
      ∀ c' ∈ pre, c' ∉ mappedCategories ["Review", "Meta-Analysis"] :=
  (category_precedence_spec ["Review", "Meta-Analysis"] (by decide)).1

theorem category_from_pubmed_types_eq_none (pub_types : List String)
    (h : ∀ pt ∈ pub_types, typeToCategory pt = none) :
    category_from_pubmed_types pub_types = none := by
  have hm : mappedCategories pub_types = [] := List.filterMap_eq_nil_iff.mpr h
  unfold category_from_pubmed_types
  by_cases hp : pub_types = []
  · rw [if_pos hp]
  · rw [if_neg hp]
    show (if mappedCategories pub_types = [] then none
          else
            match precedence.find? (fun cat => (mappedCategories pub_types).contains cat) with
            | some cat => some cat
            | none => (mappedCategories pub_types).head?) = none
    rw [if_pos hm]

theorem choose_category_of_unmapped (pub_types : List String) (title : String)
    (h : ∀ pt ∈ pub_types, typeToCategory pt = none) :
    choose_category pub_types title =
      (match category_from_title title with
       | some cat2 => cat2
       | none => CAT_UNK) := by
  unfold choose_category
  rw [category_from_pubmed_types_eq_none pub_types h]

/-- C6: when no PubMed publication type maps to a known category, the
classifier falls back to the ordered case-insensitive title rules
(meta-analysis, then RCT/trial, then guideline/consensus, then review, then
editorial, then observational), returning the first matching rule's category
and Unclassified when no rule matches; in particular a record with no
publication types and title "A Randomized Controlled Trial of X" classifies
as the RCT category. -/
theorem title_fallback_spec (pub_types : List String) (title : String)
    (h : ∀ pt ∈ pub_types, typeToCategory pt = none) :
    ((∃ rule ∈ TITLE_RULES, re_search rule.2 (lowerAscii title) = true) →
      ∃ rule pre post, TITLE_RULES = pre ++ rule :: post ∧
        choose_category pub_types title = rule.1 ∧
        re_search rule.2 (lowerAscii title) = true ∧
        ∀ rule2 ∈ pre, re_search rule2.2 (lowerAscii title) = false) ∧
    ((∀ rule ∈ TITLE_RULES, re_search rule.2 (lowerAscii title) = false) →
      choose_category pub_types title = CAT_UNK) ∧
    choose_category [] "A Randomized Controlled Trial of X" = CAT_RCT := by
  refine ⟨?_, ?_, rfl⟩
  · rintro ⟨rule0, hmem0, hmatch0⟩
    have htne : title ≠ "" := by
      intro he
      subst he
      have hnone : ∀ rule ∈ TITLE_RULES, re_search rule.2 (lowerAscii "") = false := by decide
      rw [hnone rule0 hmem0] at hmatch0
      exact Bool.false_ne_true hmatch0
    cases hf : TITLE_RULES.find? (fun rule => re_search rule.2 (lowerAscii title)) with
    | none =>
      exact absurd hmatch0 (List.find?_eq_none.mp hf rule0 hmem0)
    | some rule =>
      obtain ⟨hp, pre, post, heq, hall⟩ := find_split _ _ _ hf
      have hct : category_from_title title = some rule.1 := by
        unfold category_from_title
        rw [if_neg htne]
        show (match TITLE_RULES.find? (fun ru => re_search ru.2 (lowerAscii title)) with
              | some ru => some ru.1
              | none => none) = some rule.1
        rw [hf]
      refine ⟨rule, pre, post, heq, ?_, hp, hall⟩
      rw [choose_category_of_unmapped pub_types title h, hct]
  · intro hnone
    rw [choose_category_of_unmapped pub_types title h]
    have hct : category_from_title title = none := by
      unfold category_from_title
      by_cases htitle : title = ""
      · rw [if_pos htitle]
      · rw [if_neg htitle]
        have hf : TITLE_RULES.find? (fun rule => re_search rule.2 (lowerAscii title)) = none := by
          rw [List.find?_eq_none]
          intro rule hrule
          rw [hnone rule hrule]
          exact Bool.false_ne_true
        show (match TITLE_RULES.find? (fun ru => re_search ru.2 (lowerAscii title)) with
              | some ru => some ru.1
              | none => none) = none
        rw [hf]
    rw [hct]

/-- Witness for C6 at empty publication types and the RCT example title. -/
theorem title_fallback_spec_witness :
    choose_category [] "A Randomized Controlled Trial of X" = CAT_RCT :=
  (title_fallback_spec [] "A Randomized Controlled Trial of X" (by simp)).2.2

/-- `finalize_item` never changes the pmid field. -/
theorem finalize_item_pmid (pmidToTypes : String → Option (List String)) (it : Item) :
    (finalize_item pmidToTypes it).pmid = it.pmid := by
  cases h : it.pmid <;> simp [finalize_item, h]

/-- `finalize_item` always populates the category field. -/
theorem finalize_item_category (pmidToTypes : String → Option (List String)) (it : Item) :
    (finalize_item pmidToTypes it).category =
      some (choose_category (finalize_item pmidToTypes it).pubmed_publication_types it.title) := by
  cases h : it.pmid <;> simp [finalize_item, h]

/-- On an item without a pmid, `finalize_item` clears the enrichment fields. -/
theorem finalize_item_of_no_pmid (pmidToTypes : String → Option (List String)) (it : Item)
    (h : it.pmid = none) :
    (finalize_item pmidToTypes it).pmid = none ∧
    (finalize_item pmidToTypes it).pubmed_url = none ∧
    (finalize_item pmidToTypes it).pubmed_publication_types = [] := by
  simp [finalize_item, h]

/-- The budgeted lookup pass sets at most `budget` pmids when the input has
none. -/
theorem pmid_lookup_pass_countP (lookup : String → Option String) :
    ∀ (budget : Nat) (items : List Item), (∀ it ∈ items, it.pmid = none) →
      (pmid_lookup_pass lookup budget items).countP (fun it => it.pmid.isSome) ≤ budget := by
  intro budget items
  induction items generalizing budget with
  | nil =>
    intro _
    simp [pmid_lookup_pass]
  | cons it0 rest ih =>
    intro h0
    cases budget with
    | zero =>
      have hz : (it0 :: rest).countP (fun it => it.pmid.isSome) = 0 := by
        rw [List.countP_eq_zero]
        intro it hmem
        simp [h0 it hmem]
      rw [show pmid_lookup_pass lookup 0 (it0 :: rest) = it0 :: rest from rfl, hz]
    | succ b =>
      have h0r : ∀ it ∈ rest, it.pmid = none := fun it hmem => h0 it (List.mem_cons_of_mem _ hmem)
      have h0it : it0.pmid = none := h0 it0 (List.mem_cons_self _ _)
      show (if it0.doi = "" then it0 :: pmid_lookup_pass lookup (b + 1) rest
            else
              match lookup it0.doi with
              | some p =>
                { it0 with pmid := some p,
                           pubmed_url := some ("https://pubmed.ncbi.nlm.nih.gov/" ++ p ++ "/") } ::
                  pmid_lookup_pass lookup b rest
              | none => it0 :: pmid_lookup_pass lookup b rest).countP
          (fun it => it.pmid.isSome) ≤ b + 1
      by_cases hd : it0.doi = ""
      · rw [if_pos hd, List.countP_cons]
        simp only [h0it, Option.isSome_none, Bool.false_eq_true, if_false, Nat.add_zero]
        exact ih (b + 1) h0r
      · rw [if_neg hd]
        cases hl : lookup it0.doi with
        | some p =>
          rw [List.countP_cons]
          simp only [Option.isSome_some, if_true]
          have := ih b h0r
          omega
        | none =>
          rw [List.countP_cons]
          simp only [h0it, Option.isSome_none, Bool.false_eq_true, if_false, Nat.add_zero]
          exact le_trans (ih b h0r) (Nat.le_succ b)

def itemNoPmid : Item :=
  { journal := "BJA", journal_short := "BJA", title := "a review of outcomes",
    published := none, doi := "10.1093/bja/x", url := "u", aop := false }

/-- C10 counterexample: with every PubMed lookup failing (so nothing is
enriched and the budgeted subset is empty), the output item still carries a
populated category — derived from the title heuristics — while its pmid is
absent; so `category` is not restricted to the budgeted enriched subset. -/
theorem enrichment_fields_counterexample :
    (enrich_pipeline (fun _ => none) 120 (fun _ => none) [itemNoPmid]).map
      (fun it => (it.pmid, it.pubmed_url, it.category)) =
      [(none, none, some CAT_REVIEW)] := rfl

/-- C10 amended: pmid and pubmed_url are populated only on the budgeted
enriched subset (at most `budget` items) and are absent otherwise, with empty
publication types on non-enriched items; `category`, however, is populated on
every item of the output, falling back to title heuristics and Unclassified. -/
theorem enrichment_fields_amended (lookup : String → Option String) (budget : Nat)
    (pmidToTypes : String → Option (List String)) (items : List Item)
    (h0 : ∀ it ∈ items, it.pmid = none) :
    (∀ it ∈ enrich_pipeline lookup budget pmidToTypes items,
      (it.pmid = none → it.pubmed_url = none ∧ it.pubmed_publication_types = []) ∧
      ∃ c, it.category = some c) ∧
    (enrich_pipeline lookup budget pmidToTypes items).countP
      (fun it => it.pmid.isSome) ≤ budget := by
  constructor
  · intro it hit
    obtain ⟨it0, hit0, heq⟩ := List.mem_map.mp hit
    subst heq
    constructor
    · intro hp
      rw [finalize_item_pmid] at hp
      have hx := finalize_item_of_no_pmid pmidToTypes it0 hp
      exact ⟨hx.2.1, hx.2.2⟩
    · exact ⟨_, finalize_item_category pmidToTypes it0⟩
  · unfold enrich_pipeline
    rw [List.countP_map]
    have hfun : ((fun it => it.pmid.isSome) ∘ finalize_item pmidToTypes) =
        (fun it : Item => it.pmid.isSome) := by
      funext it
      simp [Function.comp, finalize_item_pmid]
    rw [hfun]
    exact pmid_lookup_pass_countP lookup budget items h0

def itemNoPmid2 : Item :=
  { journal := "BJA", journal_short := "BJA", title := "another trial report",
    published := none, doi := "10.1093/bja/y", url := "u2", aop := false }

/-- Witness for the amended C10: with a budget of 1 and two candidate items,
at most one item of the output carries a pmid. -/
theorem enrichment_fields_amended_witness :
    (enrich_pipeline (fun _ => some "123") 1 (fun _ => none)
      [itemNoPmid, itemNoPmid2]).countP (fun it => it.pmid.isSome) ≤ 1 :=
  (enrichment_fields_amended (fun _ => some "123") 1 (fun _ => none)
    [itemNoPmid, itemNoPmid2] (by decide)).2
